import Mathlib

/-!
# Idle-timeout monitor of `xcryptossh` (`idle.go`)

A shallow embedding of `idleTimer`: the handle operations `Reset`,
`NanosecSince`, `GetIdleTimeout`, `TimedOut`, and the select loop of the worker
goroutine started by `backgroundStart`, as a step function on an explicit
state.

Conventions.
* `time.Duration` is `int64`; durations are integers (`Int`), and
  `IsInt64` says that a value fits the type.
* `monoNow()` and the field `last` are `uint64`; clock readings are naturals,
  reduced modulo `2^64` where the code stores or subtracts them.
* A callback `func()` is represented by an identifier; `none` is `nil`.
* The worker's local variables `dur` and `heartbeat` are part of the state.
  `heartch` is `heartbeat.C` when `heartbeat` is not `nil` and `nil`
  otherwise at every assignment in the source, so it is not stored separately.
-/

namespace IdleTimer

/-- Identifier standing for a Go `func()` value. -/
abbrev Callback := Nat

/-- Range of `time.Duration` (`int64`). -/
def IsInt64 (d : Int) : Prop := -(2 : Int) ^ 63 ≤ d ∧ d < (2 : Int) ^ 63

instance (d : Int) : Decidable (IsInt64 d) := by
  unfold IsInt64
  exact inferInstance

/-- Range of `uint64`, the type of `monoNow()`. -/
def IsUint64 (n : Nat) : Prop := n < 2 ^ 64

instance (n : Nat) : Decidable (IsUint64 n) := by
  unfold IsUint64
  exact inferInstance

/-- Go conversion `uint64(dur)` of an `int64`: the value modulo `2^64`. -/
def toUint64 (d : Int) : Nat := (d % (2 : Int) ^ 64).toNat

/-- State of one `idleTimer`: the struct fields the code uses (`last`,
`timeoutCallback`), the worker goroutine's locals (`dur`, `heartbeat`), and
whether the worker has returned after `halt.ReqStop` was closed. -/
structure State where
  /-- Field `last`: monotonic timestamp stored by `Reset`. -/
  last : Nat
  /-- Field `timeoutCallback`; `none` is `nil`. -/
  timeoutCallback : Option Callback
  /-- Local `dur` of the worker goroutine. -/
  dur : Int
  /-- Local `heartbeat`: `some p` is a ticker created by `time.NewTicker(p)`,
  `none` is `nil`.  On exit the deferred function stops the ticker without
  clearing the variable. -/
  heartbeat : Option Int
  /-- The worker observed `halt.ReqStop` and returned (`halt.Done` closed). -/
  stopped : Bool
  deriving DecidableEq, Repr

/-- The two `panic` calls of the tick handler. -/
inductive PanicMsg where
  /-- Text "should be impossible to get heartbeat.C on dur == 0". -/
  | heartbeatOnZeroDur
  /-- Text "idleTimer.timeoutCallback was never set! ...". -/
  | callbackNeverSet
  deriving DecidableEq, Repr

/-- What happens to the system in one step. -/
inductive Event where
  /-- A caller runs `Reset()`; `now` is the value of `monoNow()`. -/
  | reset (now : Nat)
  /-- The worker receives `f` on `setCallback`. -/
  | setCallback (f : Option Callback)
  /-- The worker sends `dur` on `getIdleTimeoutCh`. -/
  | getIdleTimeout
  /-- The worker receives `newdur` on `setIdleTimeoutCh`; `now` is the value
  `monoNow()` has if the handler calls `t.Reset()`. -/
  | setIdleTimeout (newdur : Int) (now : Nat)
  /-- The worker receives from `heartch`; `now` is the value of `monoNow()`
  read by `t.NanosecSince()`. -/
  | tick (now : Nat)
  /-- The call `Stop()`: `halt.ReqStop` is closed and the worker returns. -/
  | stop
  deriving DecidableEq, Repr

/-- Result of one step. -/
inductive Outcome where
  /-- The step completes in state `t`; `fired` is the callback started by
  `go t.timeoutCallback()`, `reply` the value sent on `getIdleTimeoutCh`. -/
  | next (t : State) (fired : Option Callback) (reply : Option Int)
  /-- The worker goroutine panics. -/
  | panic (msg : PanicMsg)
  /-- The select case cannot be chosen: receive on a `nil` channel, or the
  worker has returned. -/
  | notReady
  deriving DecidableEq, Repr

/-- State set up by `newIdleTimer(callback, dur)` and the start of
`backgroundStart(dur)`: `last` has the zero value, the ticker exists iff
`dur > 0`. -/
def newIdleTimer (callback : Option Callback) (dur : Int) : State :=
  { last := 0
    timeoutCallback := callback
    dur := dur
    heartbeat := if dur > 0 then some dur else none
    stopped := false }

/-- `Reset`: `atomic.StoreUint64(&t.last, monoNow())`. -/
def Reset (t : State) (now : Nat) : State :=
  { t with last := now % 2 ^ 64 }

/-- `NanosecSince`: `monoNow() - atomic.LoadUint64(&t.last)` in `uint64`
arithmetic. -/
def NanosecSince (t : State) (now : Nat) : Nat :=
  (now % 2 ^ 64 + 2 ^ 64 - t.last % 2 ^ 64) % 2 ^ 64

/-- `GetIdleTimeout`: the worker's `dur`, or the zero value of the named
result when only `halt.ReqStop` is ready. -/
def GetIdleTimeout (t : State) : Int :=
  if t.stopped then 0 else t.dur

/-- `TimedOut`: `false` on the `halt.ReqStop` branch and when the received
`dur` is `0`; otherwise `t.NanosecSince() > uint64(dur)`. -/
def TimedOut (t : State) (now : Nat) : Bool :=
  if t.stopped then false
  else
    let dur := t.dur
    if dur = 0 then false
    else decide (NanosecSince t now > toUint64 dur)

/-- Handler `case newdur := <-t.setIdleTimeoutCh` of the worker loop. -/
def handleSetIdleTimeout (t : State) (newdur : Int) (now : Nat) : State :=
  if t.dur > 0 then
    -- timeouts active currently
    if newdur = t.dur then t
    else if newdur ≤ 0 then
      -- stopping timeouts
      { t with dur := newdur, heartbeat := none }
    else
      -- changing an active timeout dur
      Reset { t with dur := newdur, heartbeat := some newdur } now
  else
    -- heartbeats not currently active
    if newdur ≤ 0 then
      -- staying inactive
      { t with dur := 0 }
    else
      -- heartbeats activating
      Reset { t with dur := newdur, heartbeat := some newdur } now

/-- Handler `case <-heartch` of the worker loop, for a ticker that exists. -/
def handleTick (t : State) (now : Nat) : Outcome :=
  if t.dur = 0 then .panic .heartbeatOnZeroDur
  else if NanosecSince t now > toUint64 t.dur then
    -- After firing, disable until reactivated.
    let t' := { t with heartbeat := none }
    match t'.timeoutCallback with
    | none => .panic .callbackNeverSet
    | some f => .next t' (some f) none
  else .next t none none

/-- One step of the system.  `Reset` is a store by the caller.  While the
worker runs, the other events are the cases of its select loop; a tick is
received only when `heartch` is not `nil`.  After the worker has returned,
`setTimeoutCallback`, `SetIdleTimeout`, `GetIdleTimeout` and `Stop` return
through their `halt.ReqStop` / `halt.Done` case without touching the state,
and no tick is received. -/
def step (t : State) : Event → Outcome
  | .reset now => .next (Reset t now) none none
  | .setCallback f =>
    if t.stopped then .next t none none
    else .next { t with timeoutCallback := f } none none
  | .getIdleTimeout =>
    if t.stopped then .next t none none
    else .next t none (some t.dur)
  | .setIdleTimeout newdur now =>
    if t.stopped then .next t none none
    else .next (handleSetIdleTimeout t newdur now) none none
  | .tick now =>
    if t.stopped then .notReady
    else
      match t.heartbeat with
      | none => .notReady
      | some _ => handleTick t now
  | .stop => .next { t with stopped := true } none none

/-- Run a sequence of events; `none` when some step does not complete
(panic, or an event that cannot happen in the state it meets). -/
def run : State → List Event → Option State
  | t, [] => some t
  | t, ev :: evs =>
    match step t ev with
    | .next t' _ _ => run t' evs
    | _ => none

/-- Arguments of an event fit their Go types. -/
def Event.WellTyped : Event → Prop
  | .reset now => IsUint64 now
  | .setCallback _ => True
  | .getIdleTimeout => True
  | .setIdleTimeout newdur now => IsInt64 newdur ∧ IsUint64 now
  | .tick now => IsUint64 now
  | .stop => True

/-- The event is a duration write that installs a ticker when handled in a
state whose stored duration is `stored`: a positive value different from
`stored`. -/
def Event.Activates (stored : Int) : Event → Prop
  | .setIdleTimeout newdur _ => 0 < newdur ∧ newdur ≠ stored
  | _ => False

/-- Somewhere along the run of `evs` from `t` the live worker accepts a duration
write that is positive and differs from the duration stored at that moment. -/
def HasActivation (t : State) (evs : List Event) : Prop :=
  ∃ (pre : List Event) (ev : Event) (post : List Event) (tk : State),
    evs = pre ++ ev :: post ∧ run t pre = some tk ∧ tk.stopped = false ∧
      ev.Activates tk.dur

/-- A ticker, when present, has the stored duration as its period, and that
duration is positive; the stored duration fits `int64`. -/
def Inv (t : State) : Prop :=
  (∀ p, t.heartbeat = some p → 0 < t.dur ∧ p = t.dur) ∧ IsInt64 t.dur

/-- The duration write `newdur`, handled in state `t`, reaches one of the two
`time.NewTicker(dur)` calls of the handler ("changing an active timeout dur",
"heartbeats activating"). -/
def installsTicker (t : State) (newdur : Int) : Bool :=
  if t.dur > 0 then
    if newdur = t.dur then false
    else if newdur ≤ 0 then false
    else true
  else
    if newdur ≤ 0 then false
    else true

/-- Ghost flag "a crossing has fired since the most recent activation" after
the step `ev` from `t`: set when the step starts the callback, cleared when the
live worker handles a duration write that installs a ticker, kept otherwise. -/
def crossedAfter (t : State) (crossed : Bool) (ev : Event) : Bool :=
  match step t ev with
  | .next _ (some _) _ => true
  | .next _ none _ =>
    match ev with
    | .setIdleTimeout newdur _ =>
      if t.stopped then crossed
      else if installsTicker t newdur then false
      else crossed
    | _ => crossed
  | _ => crossed

/-- The ghost flag at the end of the run of `evs` from `t`, starting from
`crossed`. -/
def crossedSince : State → Bool → List Event → Bool
  | _, crossed, [] => crossed
  | t, crossed, ev :: evs =>
    match step t ev with
    | .next t' _ _ => crossedSince t' (crossedAfter t crossed ev) evs
    | _ => crossed

/-- Worker invariant with the ghost flag: the ticker is present exactly when
the duration is positive and no crossing has fired since the last activation,
and a ticker has the stored duration as its period. -/
def TickerInv (t : State) (crossed : Bool) : Prop :=
  (t.heartbeat ≠ none ↔ (0 < t.dur ∧ crossed = false)) ∧
    ∀ p, t.heartbeat = some p → p = t.dur

/-! ## Arithmetic of the two conversions -/

theorem toUint64_of_nonneg (d : Int) (h0 : 0 ≤ d) (h1 : d < 2 ^ 63) :
    (toUint64 d : Int) = d := by
  unfold toUint64
  omega

theorem toUint64_of_neg (d : Int) (h0 : d < 0) (h1 : -(2 : Int) ^ 63 ≤ d) :
    (toUint64 d : Int) = d + 2 ^ 64 := by
  unfold toUint64
  omega

theorem nanosecSince_lt (t : State) (now : Nat) : NanosecSince t now < 2 ^ 64 := by
  unfold NanosecSince
  omega

theorem nanosecSince_reset_of_le (t : State) (now n : Nat) (hle : now ≤ n)
    (hadv : n - now < 2 ^ 64) : NanosecSince (Reset t now) n = n - now := by
  unfold NanosecSince Reset
  simp only
  omega

/-- For a live timer whose duration is a non-negative `int64`, `TimedOut` is
the test `dur > 0 ∧ NanosecSince > dur`. -/
theorem timedOut_iff_of_nonneg (t : State) (now : Nat) (hlive : t.stopped = false)
    (h0 : 0 ≤ t.dur) (h1 : t.dur < 2 ^ 63) :
    TimedOut t now = true ↔ (0 < t.dur ∧ (NanosecSince t now : Int) > t.dur) := by
  have hu := toUint64_of_nonneg t.dur h0 h1
  unfold TimedOut
  simp only [hlive, Bool.false_eq_true, if_false]
  by_cases hz : t.dur = 0
  · simp [hz]
  · simp only [hz, if_false, decide_eq_true_eq]
    omega

/-! ## Claims -/

/-- C1: for every state whose duration is 0, every stored last-activity
timestamp and every clock reading, `TimedOut` returns `false`. -/
theorem timedOut_false_of_dur_zero (t : State) (now : Nat) (h : t.dur = 0) :
    TimedOut t now = false := by
  unfold TimedOut
  simp [h]

theorem timedOut_false_of_dur_zero_witness :
    (Reset (newIdleTimer (some 1) 0) 5).dur = 0 ∧
      TimedOut (Reset (newIdleTimer (some 1) 0) 5) (2 ^ 64 - 1) = false :=
  ⟨by decide, timedOut_false_of_dur_zero _ _ (by decide)⟩

/-- C2, the code at the failing inputs: a live worker holds a negative
duration (after a negative write to an active timer, or from creation), so
`GetIdleTimeout() > 0` is false, and yet `TimedOut` returns `true`: once with
the clock sampled one nanosecond before the stored timestamp, once with
`last = 0` and a clock reading above `2^63`. -/
theorem timedOut_true_with_negative_dur :
    run (newIdleTimer (some 1) 5000000000)
        [.setIdleTimeout (-1000000000) 10, .reset 1000]
      = some { last := 1000, timeoutCallback := some 1, dur := -1000000000,
               heartbeat := none, stopped := false } ∧
    GetIdleTimeout { last := 1000, timeoutCallback := some 1, dur := -1000000000,
                     heartbeat := none, stopped := false } = -1000000000 ∧
    TimedOut { last := 1000, timeoutCallback := some 1, dur := -1000000000,
               heartbeat := none, stopped := false } 999 = true ∧
    GetIdleTimeout (newIdleTimer none (-(2 : Int) ^ 63)) = -(2 : Int) ^ 63 ∧
    TimedOut (newIdleTimer none (-(2 : Int) ^ 63)) (2 ^ 63 + 1) = true := by
  decide

/-! ### Ticker presence along a run -/

theorem run_cons_next (t t' : State) (ev : Event) (evs : List Event)
    (f : Option Callback) (r : Option Int) (h : step t ev = .next t' f r) :
    run t (ev :: evs) = run t' evs := by
  simp [run, h]

theorem run_cons_some (t tz : State) (ev : Event) (evs : List Event)
    (h : run t (ev :: evs) = some tz) :
    ∃ t' f r, step t ev = .next t' f r ∧ run t' evs = some tz := by
  cases hs : step t ev with
  | next t' f r => exact ⟨t', f, r, rfl, by rw [run_cons_next t t' ev evs f r hs] at h; exact h⟩
  | panic m => simp [run, hs] at h
  | notReady => simp [run, hs] at h

theorem hasActivation_cons (t t' : State) (ev : Event) (evs : List Event)
    (f : Option Callback) (r : Option Int) (h : step t ev = .next t' f r)
    (ha : HasActivation t' evs) : HasActivation t (ev :: evs) := by
  obtain ⟨pre, e, post, tk, he, hr, hs, hact⟩ := ha
  refine ⟨ev :: pre, e, post, tk, ?_, ?_, hs, hact⟩
  · simp [he]
  · rw [run_cons_next t t' ev pre f r h]
    exact hr

/-- A step from a state without ticker ends without ticker, unless it is an
accepted duration write that is positive and differs from the stored one. -/
theorem step_heartbeat_none (t t' : State) (ev : Event) (f : Option Callback)
    (r : Option Int) (hh : t.heartbeat = none) (h : step t ev = .next t' f r) :
    t'.heartbeat = none ∨ (t.stopped = false ∧ ev.Activates t.dur) := by
  cases ev with
  | reset now =>
    simp only [step, Outcome.next.injEq] at h
    left; rw [← h.1]; simpa [Reset] using hh
  | setCallback g =>
    simp only [step] at h
    split at h <;> simp only [Outcome.next.injEq] at h <;> (left; rw [← h.1]; simpa using hh)
  | getIdleTimeout =>
    simp only [step] at h
    split at h <;> simp only [Outcome.next.injEq] at h <;> (left; rw [← h.1]; exact hh)
  | setIdleTimeout newdur now =>
    simp only [step] at h
    by_cases hs : t.stopped = true
    · simp only [hs, if_true, Outcome.next.injEq] at h
      left; rw [← h.1]; exact hh
    · simp only [hs, Bool.false_eq_true, if_false, Outcome.next.injEq] at h
      have hs' : t.stopped = false := by simpa using hs
      by_cases hact : 0 < newdur ∧ newdur ≠ t.dur
      · right; exact ⟨hs', hact⟩
      · left
        rw [← h.1]
        unfold handleSetIdleTimeout
        by_cases h1 : t.dur > 0
        · by_cases h2 : newdur = t.dur
          · simp [h1, h2, hh]
          · by_cases h3 : newdur ≤ 0
            · simp [h1, h2, h3]
            · exact absurd ⟨by omega, h2⟩ hact
        · by_cases h3 : newdur ≤ 0
          · simp [h1, h3, hh]
          · exact absurd ⟨by omega, by omega⟩ hact
  | tick now =>
    simp only [step, hh] at h
    split at h <;> simp at h
  | stop =>
    simp only [step, Outcome.next.injEq] at h
    left; rw [← h.1]; simpa using hh

/-- Along a run from a state without ticker, the ticker stays absent until an
activating duration write is accepted. -/
theorem run_heartbeat_none (evs : List Event) :
    ∀ (t tz : State), t.heartbeat = none → run t evs = some tz →
      tz.heartbeat = none ∨ HasActivation t evs := by
  induction evs with
  | nil =>
    intro t tz hh h
    simp only [run, Option.some.injEq] at h
    left; rw [← h]; exact hh
  | cons ev evs ih =>
    intro t tz hh h
    obtain ⟨t', f, r, hs, hr⟩ := run_cons_some t tz ev evs h
    rcases step_heartbeat_none t t' ev f r hh hs with h' | ⟨hlive, hact⟩
    · rcases ih t' tz h' hr with hz | ha
      · left; exact hz
      · right; exact hasActivation_cons t t' ev evs f r hs ha
    · right
      exact ⟨[], ev, evs, t, rfl, rfl, hlive, hact⟩

/-- A tick that starts a callback is a crossing handled with a ticker present,
and it releases the ticker. -/
theorem tick_fires_inv (t t' : State) (now : Nat) (f : Callback) (r : Option Int)
    (h : step t (.tick now) = .next t' (some f) r) :
    t.heartbeat ≠ none ∧ t'.heartbeat = none ∧ t'.dur = t.dur ∧ t.stopped = false := by
  simp only [step] at h
  by_cases hs : t.stopped = true
  · simp [hs] at h
  · simp only [hs, Bool.false_eq_true, if_false] at h
    cases hb : t.heartbeat with
    | none => simp [hb] at h
    | some p =>
      simp only [hb, handleTick] at h
      split at h
      · simp at h
      · split at h
        · split at h
          · simp at h
          · simp only [Outcome.next.injEq] at h
            refine ⟨by simp, ?_, ?_, by simpa using hs⟩
            · rw [← h.1]
            · rw [← h.1]
        · simp at h

/-- C3: the callback is started at most once per activation.  If a tick at
`n1` starts the callback, leaving state `t1`, and after the events `mid` a tick
at `n2` starts it again, then `mid` contains a duration write accepted by the
live worker whose value is positive and differs from the duration stored at
that moment.  After the first crossing the ticker is absent, no tick can be
received in `t1`, and after any events `evs` without such a write the ticker is
still absent and no tick can be received. -/
theorem callback_once_per_activation (t t1 t2 t3 : State) (n1 n2 : Nat)
    (f g : Callback) (r1 r2 : Option Int) (mid : List Event)
    (h1 : step t (.tick n1) = .next t1 (some f) r1)
    (hmid : run t1 mid = some t2)
    (h2 : step t2 (.tick n2) = .next t3 (some g) r2) :
    HasActivation t1 mid ∧ t1.heartbeat = none ∧
      (∀ n, step t1 (.tick n) = .notReady) ∧
      (∀ evs tz, run t1 evs = some tz → ¬ HasActivation t1 evs →
        tz.heartbeat = none ∧ ∀ n, step tz (.tick n) = .notReady) := by
  have hh1 := (tick_fires_inv t t1 n1 f r1 h1).2.1
  have hh2 := (tick_fires_inv t2 t3 n2 g r2 h2).1
  have hnr : ∀ (s : State), s.heartbeat = none → ∀ n, step s (.tick n) = .notReady := by
    intro s hs n
    simp [step, hs]
  refine ⟨?_, hh1, hnr t1 hh1, ?_⟩
  · rcases run_heartbeat_none mid t1 t2 hh1 hmid with hz | ha
    · exact absurd hz hh2
    · exact ha
  · intro evs tz hr hna
    rcases run_heartbeat_none evs t1 tz hh1 hr with hz | ha
    · exact ⟨hz, hnr tz hz⟩
    · exact absurd ha hna

theorem callback_once_per_activation_witness :
    step (newIdleTimer (some 7) 50) (.tick 51)
        = .next { newIdleTimer (some 7) 50 with heartbeat := none } (some 7) none ∧
    run { newIdleTimer (some 7) 50 with heartbeat := none }
        [.setIdleTimeout 50 60, .tick 70, .setIdleTimeout 80 100] = none ∧
    run { newIdleTimer (some 7) 50 with heartbeat := none }
        [.setIdleTimeout 50 60, .reset 70, .setIdleTimeout 80 100]
        = some { last := 100, timeoutCallback := some 7, dur := 80,
                 heartbeat := some 80, stopped := false } ∧
    HasActivation { newIdleTimer (some 7) 50 with heartbeat := none }
        [.setIdleTimeout 50 60, .reset 70, .setIdleTimeout 80 100] :=
  ⟨by decide, by decide, by decide,
    (callback_once_per_activation (newIdleTimer (some 7) 50)
      { newIdleTimer (some 7) 50 with heartbeat := none }
      { last := 100, timeoutCallback := some 7, dur := 80, heartbeat := some 80,
        stopped := false }
      { last := 100, timeoutCallback := some 7, dur := 80, heartbeat := none,
        stopped := false }
      51 181 7 7 none none
      [.setIdleTimeout 50 60, .reset 70, .setIdleTimeout 80 100]
      (by decide) (by decide) (by decide)).1⟩

/-- C4: in a live disabled state (duration 0, no ticker), handling
`SetIdleTimeout(0)` leaves the whole state unchanged, and handling
`SetIdleTimeout(newD)` with `newD > 0` at clock reading `now` gives duration
`newD`, a ticker of period `newD`, last-activity `now` and the same callback;
neither starts the callback. -/
theorem setIdleTimeout_from_disabled (t : State) (newD : Int) (now n0 : Nat)
    (hlive : t.stopped = false) (hd : t.dur = 0) (hh : t.heartbeat = none)
    (hpos : 0 < newD) (hnow : IsUint64 now) :
    step t (.setIdleTimeout 0 n0) = .next t none none ∧
      step t (.setIdleTimeout newD now)
        = .next { t with dur := newD, heartbeat := some newD, last := now } none none := by
  unfold IsUint64 at hnow
  obtain ⟨l, cb, d, hb, st⟩ := t
  simp only at hlive hd hh
  subst hlive hd hh
  have h3 : ¬ newD ≤ 0 := by omega
  constructor
  · simp [step, handleSetIdleTimeout]
  · simp only [step, handleSetIdleTimeout, Reset, Nat.mod_eq_of_lt hnow]
    simp [h3]

theorem setIdleTimeout_from_disabled_witness :
    step (newIdleTimer (some 3) 0) (.setIdleTimeout 0 11)
        = .next (newIdleTimer (some 3) 0) none none ∧
      step (newIdleTimer (some 3) 0) (.setIdleTimeout 50 1000)
        = .next { last := 1000, timeoutCallback := some 3, dur := 50,
                  heartbeat := some 50, stopped := false } none none :=
  setIdleTimeout_from_disabled (newIdleTimer (some 3) 0) 50 1000 11
    (by decide) (by decide) (by decide) (by decide) (by decide)

/-- C5: in a live state with duration `d1 > 0` (ticker present or released
after a crossing), handling `SetIdleTimeout(d2)` with `d2 > 0`, `d2 ≠ d1` at
clock reading `now` gives duration `d2`, a ticker of period `d2` and
last-activity `now`.  Then at every later clock reading `n` with
`n - now ≤ d2`, `TimedOut` is `false` and a tick changes nothing and starts no
callback, whatever the stored last-activity was before the write. -/
theorem reconfigure_restarts_window (t : State) (d2 : Int) (now n : Nat)
    (hlive : t.stopped = false) (hd1 : 0 < t.dur) (hd2 : 0 < d2) (hne : d2 ≠ t.dur)
    (hr : IsInt64 d2) (hnow : IsUint64 now)
    (hle : now ≤ n) (hadv : (n : Int) - now ≤ d2) :
    step t (.setIdleTimeout d2 now)
        = .next { t with dur := d2, heartbeat := some d2, last := now } none none ∧
      TimedOut { t with dur := d2, heartbeat := some d2, last := now } n = false ∧
      step { t with dur := d2, heartbeat := some d2, last := now } (.tick n)
        = .next { t with dur := d2, heartbeat := some d2, last := now } none none := by
  unfold IsUint64 at hnow
  unfold IsInt64 at hr
  obtain ⟨l, cb, d1, hb, st⟩ := t
  simp only at hlive hd1 hne
  subst hlive
  have hu := toUint64_of_nonneg d2 (by omega) hr.2
  have h3 : ¬ d2 ≤ 0 := by omega
  have hz : ¬ d2 = 0 := by omega
  have hns : ¬ (NanosecSince ⟨now, cb, d2, some d2, false⟩ n > toUint64 d2) := by
    unfold NanosecSince
    simp only
    omega
  have hne' : ¬ d2 = d1 := hne
  have hd1' : d1 > 0 := hd1
  refine ⟨?_, ?_, ?_⟩
  · simp only [step, handleSetIdleTimeout, Reset, Nat.mod_eq_of_lt hnow]
    simp [hd1', hne', h3]
  · simp only [TimedOut]
    simp [hz, hns]
  · simp only [step, handleTick]
    simp [hz, hns]

theorem reconfigure_restarts_window_witness :
    step { last := 0, timeoutCallback := some 3, dur := 50, heartbeat := some 50,
           stopped := false } (.setIdleTimeout 200 1000)
        = .next { last := 1000, timeoutCallback := some 3, dur := 200,
                  heartbeat := some 200, stopped := false } none none ∧
      TimedOut { last := 1000, timeoutCallback := some 3, dur := 200,
                 heartbeat := some 200, stopped := false } 1200 = false ∧
      step { last := 1000, timeoutCallback := some 3, dur := 200,
             heartbeat := some 200, stopped := false } (.tick 1200)
        = .next { last := 1000, timeoutCallback := some 3, dur := 200,
                  heartbeat := some 200, stopped := false } none none :=
  reconfigure_restarts_window
    { last := 0, timeoutCallback := some 3, dur := 50, heartbeat := some 50,
      stopped := false } 200 1000 1200
    (by decide) (by decide) (by decide) (by decide) (by decide) (by decide)
    (by decide) (by decide)

/-! ### Repeated duration writes -/

theorem handleSetIdleTimeout_same (t : State) (n : Nat) (hd : 0 < t.dur) :
    handleSetIdleTimeout t t.dur n = t := by
  have h : t.dur > 0 := hd
  simp [handleSetIdleTimeout, h]

theorem handleSetIdleTimeout_dur (t : State) (d : Int) (n : Nat) (hd : 0 < d) :
    (handleSetIdleTimeout t d n).dur = d := by
  have h3 : ¬ d ≤ 0 := by omega
  unfold handleSetIdleTimeout
  by_cases h1 : t.dur > 0
  · by_cases h2 : d = t.dur
    · simp [h1, h2]
    · simp [h1, h2, h3, Reset]
  · simp [h1, h3, Reset]

theorem handleSetIdleTimeout_stopped (t : State) (d : Int) (n : Nat) :
    (handleSetIdleTimeout t d n).stopped = t.stopped := by
  unfold handleSetIdleTimeout Reset
  split
  · split
    · rfl
    · split <;> rfl
  · split <;> rfl

/-- C6: in a live state with duration `d > 0` (with the ticker present, and
also without), handling `SetIdleTimeout(d)` leaves duration, ticker, callback
and last-activity unchanged and starts no callback; and from every start state
`t`, handling `SetIdleTimeout(d)` at `n1` and again at `n2` (in particular for
`n1 ≤ n2`) ends in the same state as handling it once at `n1`. -/
theorem setIdleTimeout_idempotent (s t : State) (d : Int) (n n1 n2 : Nat)
    (hd : 0 < d) (hlive : s.stopped = false) (hsd : s.dur = d) :
    step s (.setIdleTimeout d n) = .next s none none ∧
      run t [.setIdleTimeout d n1, .setIdleTimeout d n2]
        = run t [.setIdleTimeout d n1] := by
  constructor
  · subst hsd
    simp [step, hlive, handleSetIdleTimeout_same s n hd]
  · by_cases hs : t.stopped = true
    · simp [run, step, hs]
    · have hs' : t.stopped = false := by simpa using hs
      have hst := handleSetIdleTimeout_stopped t d n1
      have hdur := handleSetIdleTimeout_dur t d n1 hd
      have hsame := handleSetIdleTimeout_same (handleSetIdleTimeout t d n1) n2
        (by rw [hdur]; exact hd)
      rw [hdur] at hsame
      simp [run, step, hs', hst, hsame]

theorem setIdleTimeout_idempotent_witness :
    step { last := 40, timeoutCallback := some 3, dur := 50, heartbeat := some 50,
           stopped := false } (.setIdleTimeout 50 90)
        = .next { last := 40, timeoutCallback := some 3, dur := 50,
                  heartbeat := some 50, stopped := false } none none ∧
      run (newIdleTimer none 0) [.setIdleTimeout 50 10, .setIdleTimeout 50 20]
        = run (newIdleTimer none 0) [.setIdleTimeout 50 10] :=
  setIdleTimeout_idempotent
    { last := 40, timeoutCallback := some 3, dur := 50, heartbeat := some 50,
      stopped := false }
    (newIdleTimer none 0) 50 90 10 20
    (by decide) (by decide) (by decide)

/-- C8: `Reset` followed by `NanosecSince` at the same clock reading gives 0
(any state, any reading); with a configured duration `d > 0`, `Reset` followed
by `TimedOut` at the same reading gives `false`, and `TimedOut` is `false` at
every later reading `n` with `n - now ≤ d`. -/
theorem reset_then_timedOut (s t : State) (m now n : Nat) (hd : 0 < t.dur)
    (hr : IsInt64 t.dur) (hle : now ≤ n) (hadv : (n : Int) - now ≤ t.dur) :
    NanosecSince (Reset s m) m = 0 ∧ TimedOut (Reset t now) now = false ∧
      TimedOut (Reset t now) n = false := by
  unfold IsInt64 at hr
  have hu := toUint64_of_nonneg t.dur (by omega) hr.2
  refine ⟨?_, ?_, ?_⟩
  · unfold NanosecSince Reset
    simp only
    omega
  · unfold TimedOut
    have h0 : NanosecSince (Reset t now) now = 0 := by
      unfold NanosecSince Reset
      simp only
      omega
    simp [Reset] at h0 ⊢
    intro _ _
    rw [h0]
    omega
  · unfold TimedOut
    have h1 : NanosecSince (Reset t now) n ≤ toUint64 t.dur := by
      unfold NanosecSince Reset
      simp only
      omega
    simp [Reset] at h1 ⊢
    intro _ _
    exact h1

theorem reset_then_timedOut_witness :
    NanosecSince (Reset (newIdleTimer none 50) 77) 77 = 0 ∧
      TimedOut (Reset (newIdleTimer none 50) 1000) 1000 = false ∧
      TimedOut (Reset (newIdleTimer none 50) 1000) 1050 = false :=
  reset_then_timedOut (newIdleTimer none 50) (newIdleTimer none 50) 77 1000 1050
    (by decide) (by decide) (by decide) (by decide)

/-- C7: after a crossing at duration `d > 0` has started the callback, the
ticker is released and the duration is still `d`.  Handling `SetIdleTimeout(d)`
then changes nothing, so the ticker stays absent, and no tick can be received
at any clock reading, hence no callback is started.  One step leads to a state
with a ticker exactly when it is `SetIdleTimeout(e)` with `e > 0`, `e ≠ d`, and
to the disabled state (duration 0, no ticker) exactly when it is
`SetIdleTimeout(0)`; no step from the dormant state starts a callback. -/
theorem no_reactivation_with_same_duration (t t1 : State) (n0 : Nat) (f : Callback)
    (r : Option Int) (hd : 0 < t.dur)
    (hfire : step t (.tick n0) = .next t1 (some f) r) :
    t1.heartbeat = none ∧ t1.dur = t.dur ∧
      (∀ n, step t1 (.setIdleTimeout t.dur n) = .next t1 none none) ∧
      (∀ n, step t1 (.tick n) = .notReady) ∧
      (∀ ev t2 g r2, step t1 ev = .next t2 g r2 →
        g = none ∧
        (t2.heartbeat ≠ none ↔ ∃ e n, ev = .setIdleTimeout e n ∧ 0 < e ∧ e ≠ t.dur) ∧
        ((t2.dur = 0 ∧ t2.heartbeat = none) ↔ ∃ n, ev = .setIdleTimeout 0 n)) := by
  obtain ⟨_, hh, hdur, hlive⟩ := tick_fires_inv t t1 n0 f r hfire
  have hlive1 : t1.stopped = false := by
    simp only [step, hlive, Bool.false_eq_true, if_false] at hfire
    cases hb : t.heartbeat with
    | none => simp [hb] at hfire
    | some p =>
      simp only [hb, handleTick] at hfire
      split at hfire
      · simp at hfire
      · split at hfire
        · split at hfire
          · simp at hfire
          · simp only [Outcome.next.injEq] at hfire
            rw [← hfire.1]; exact hlive
        · simp at hfire
  have hd1 : 0 < t1.dur := by rw [hdur]; exact hd
  have hd1' : t1.dur > 0 := hd1
  refine ⟨hh, hdur, ?_, ?_, ?_⟩
  · intro n
    rw [← hdur]
    simp [step, hlive1, handleSetIdleTimeout_same t1 n hd1]
  · intro n
    simp [step, hh]
  · intro ev t2 g r2 hstep
    rw [← hdur]
    cases ev with
    | reset now =>
      simp only [step, Outcome.next.injEq] at hstep
      obtain ⟨h2, hg, _⟩ := hstep
      subst h2
      refine ⟨hg.symm, ?_, ?_⟩
      · simp [Reset, hh]
      · simp only [Reset]
        constructor
        · intro h; omega
        · intro h; obtain ⟨_, h⟩ := h; cases h
    | setCallback c =>
      simp only [step, hlive1, Bool.false_eq_true, if_false, Outcome.next.injEq] at hstep
      obtain ⟨h2, hg, _⟩ := hstep
      subst h2
      refine ⟨hg.symm, ?_, ?_⟩
      · simp [hh]
      · constructor
        · intro h; simp only at h; omega
        · intro h; obtain ⟨_, h⟩ := h; cases h
    | getIdleTimeout =>
      simp only [step, hlive1, Bool.false_eq_true, if_false, Outcome.next.injEq] at hstep
      obtain ⟨h2, hg, _⟩ := hstep
      subst h2
      refine ⟨hg.symm, ?_, ?_⟩
      · simp [hh]
      · constructor
        · intro h; omega
        · intro h; obtain ⟨_, h⟩ := h; cases h
    | setIdleTimeout newdur now =>
      simp only [step, hlive1, Bool.false_eq_true, if_false, Outcome.next.injEq] at hstep
      obtain ⟨h2, hg, _⟩ := hstep
      subst h2
      refine ⟨hg.symm, ?_, ?_⟩
      · unfold handleSetIdleTimeout
        by_cases e1 : newdur = t1.dur
        · simp [hd1', e1, hh]
        · by_cases e2 : newdur ≤ 0
          · simp only [hd1', if_true, e1, if_false, e2]
            simp only [ne_eq, not_true_eq_false, Event.setIdleTimeout.injEq, false_iff,
              not_exists, not_and]
            intro e n h; omega
          · simp only [hd1', if_true, e1, if_false, e2, Reset]
            simp only [ne_eq, reduceCtorEq, not_false_eq_true, Event.setIdleTimeout.injEq,
              true_iff]
            exact ⟨newdur, now, ⟨rfl, rfl⟩, by omega, e1⟩
      · unfold handleSetIdleTimeout
        by_cases e1 : newdur = t1.dur
        · simp only [hd1', if_true, e1]
          constructor
          · intro h; omega
          · intro h; obtain ⟨_, h⟩ := h
            simp only [Event.setIdleTimeout.injEq] at h
            omega
        · by_cases e2 : newdur ≤ 0
          · simp only [hd1', if_true, e1, if_false, e2, and_true,
              Event.setIdleTimeout.injEq]
            constructor
            · intro h; exact ⟨now, h, rfl⟩
            · intro h; obtain ⟨_, h, _⟩ := h; exact h
          · simp only [hd1', if_true, e1, if_false, e2, Reset, reduceCtorEq, and_false,
              Event.setIdleTimeout.injEq, false_iff, not_exists, not_and]
            intro n h; omega
    | tick now =>
      simp [step, hh] at hstep
    | stop =>
      simp only [step, Outcome.next.injEq] at hstep
      obtain ⟨h2, hg, _⟩ := hstep
      subst h2
      refine ⟨hg.symm, ?_, ?_⟩
      · simp [hh]
      · constructor
        · intro h; simp only at h; omega
        · intro h; obtain ⟨_, h⟩ := h; cases h

theorem no_reactivation_with_same_duration_witness :
    step (newIdleTimer (some 7) 50) (.tick 51)
        = .next { newIdleTimer (some 7) 50 with heartbeat := none } (some 7) none ∧
      (∀ n, step { newIdleTimer (some 7) 50 with heartbeat := none }
          (.setIdleTimeout 50 n)
        = .next { newIdleTimer (some 7) 50 with heartbeat := none } none none) ∧
      (∀ n, step { newIdleTimer (some 7) 50 with heartbeat := none } (.tick n)
        = .notReady) :=
  ⟨by decide,
    (no_reactivation_with_same_duration (newIdleTimer (some 7) 50)
      { newIdleTimer (some 7) 50 with heartbeat := none } 51 7 none
      (by decide) (by decide)).2.2.1,
    (no_reactivation_with_same_duration (newIdleTimer (some 7) 50)
      { newIdleTimer (some 7) 50 with heartbeat := none } 51 7 none
      (by decide) (by decide)).2.2.2.1⟩

/-- C9, the code at the failing inputs: after `newIdleTimer(cb, 5)` the worker
accepts `SetIdleTimeout(-3)`; it stops the ticker but stores `-3`, and both the
reply on `getIdleTimeoutCh` and `GetIdleTimeout` are `-3`, not `0`.  A timer
created with `d0 = -1` and no write also answers `-1`.  The same write to a
timer that is already inactive stores `0`. -/
theorem getIdleTimeout_negative_when_disabled :
    run (newIdleTimer (some 1) 5) [.setIdleTimeout (-3) 10]
      = some { last := 0, timeoutCallback := some 1, dur := -3, heartbeat := none,
               stopped := false } ∧
    step { last := 0, timeoutCallback := some 1, dur := -3, heartbeat := none,
           stopped := false } .getIdleTimeout
      = .next { last := 0, timeoutCallback := some 1, dur := -3, heartbeat := none,
                stopped := false } none (some (-3)) ∧
    GetIdleTimeout { last := 0, timeoutCallback := some 1, dur := -3,
                     heartbeat := none, stopped := false } = -3 ∧
    GetIdleTimeout (newIdleTimer (some 1) (-1)) = -1 ∧
    run (newIdleTimer (some 1) 0) [.setIdleTimeout (-3) 10]
      = some (newIdleTimer (some 1) 0) := by
  decide

/-! ### Invariant of reachable states -/

theorem inv_newIdleTimer (cb : Option Callback) (d0 : Int) (h : IsInt64 d0) :
    Inv (newIdleTimer cb d0) := by
  refine ⟨?_, h⟩
  intro p hp
  simp only [newIdleTimer] at hp ⊢
  by_cases hd : d0 > 0
  · simp only [hd, if_true, Option.some.injEq] at hp
    exact ⟨hd, hp.symm⟩
  · simp [hd] at hp

theorem inv_handleSetIdleTimeout (t : State) (d : Int) (n : Nat) (hi : Inv t)
    (hd : IsInt64 d) : Inv (handleSetIdleTimeout t d n) := by
  obtain ⟨l, cb, dur, hb, st⟩ := t
  unfold Inv IsInt64 at *
  simp only at hi
  obtain ⟨hhb, hr⟩ := hi
  unfold handleSetIdleTimeout Reset
  by_cases h1 : dur > 0
  · by_cases h2 : d = dur
    · rw [if_pos h1, if_pos h2]
      dsimp only
      exact ⟨hhb, hr⟩
    · by_cases h3 : d ≤ 0
      · rw [if_pos h1, if_neg h2, if_pos h3]
        dsimp only
        exact ⟨by intro p hp; simp at hp, hd⟩
      · rw [if_pos h1, if_neg h2, if_neg h3]
        dsimp only
        refine ⟨?_, hd⟩
        intro p hp
        simp only [Option.some.injEq] at hp
        exact ⟨by omega, hp.symm⟩
  · by_cases h3 : d ≤ 0
    · rw [if_neg h1, if_pos h3]
      dsimp only
      refine ⟨?_, by omega⟩
      intro p hp
      exact absurd (hhb p hp).1 h1
    · rw [if_neg h1, if_neg h3]
      dsimp only
      refine ⟨?_, hd⟩
      intro p hp
      simp only [Option.some.injEq] at hp
      exact ⟨by omega, hp.symm⟩

theorem inv_step (t t' : State) (ev : Event) (f : Option Callback) (r : Option Int)
    (hi : Inv t) (hw : ev.WellTyped) (h : step t ev = .next t' f r) : Inv t' := by
  cases ev with
  | reset now =>
    simp only [step, Outcome.next.injEq] at h
    rw [← h.1]; exact hi
  | setCallback g =>
    simp only [step] at h
    split at h <;> simp only [Outcome.next.injEq] at h <;> (rw [← h.1]; exact hi)
  | getIdleTimeout =>
    simp only [step] at h
    split at h <;> simp only [Outcome.next.injEq] at h <;> (rw [← h.1]; exact hi)
  | setIdleTimeout newdur now =>
    simp only [step] at h
    split at h <;> simp only [Outcome.next.injEq] at h
    · rw [← h.1]; exact hi
    · rw [← h.1]; exact inv_handleSetIdleTimeout t newdur now hi hw.1
  | tick now =>
    simp only [step] at h
    split at h
    · simp at h
    · split at h
      · simp at h
      · simp only [handleTick] at h
        split at h
        · simp at h
        · split at h
          · split at h
            · simp at h
            · simp only [Outcome.next.injEq] at h
              rw [← h.1]
              exact ⟨by intro p hp; simp at hp, hi.2⟩
          · simp only [Outcome.next.injEq] at h
            rw [← h.1]; exact hi
  | stop =>
    simp only [step, Outcome.next.injEq] at h
    rw [← h.1]; exact hi

theorem inv_run (evs : List Event) :
    ∀ (t tz : State), Inv t → (∀ ev ∈ evs, ev.WellTyped) → run t evs = some tz →
      Inv tz := by
  induction evs with
  | nil =>
    intro t tz hi _ h
    simp only [run, Option.some.injEq] at h
    rw [← h]; exact hi
  | cons ev evs ih =>
    intro t tz hi hw h
    obtain ⟨t', f, r, hs, hr⟩ := run_cons_some t tz ev evs h
    exact ih t' tz (inv_step t t' ev f r hi (hw ev (List.mem_cons_self ev evs)) hs)
      (fun e he => hw e (List.mem_cons_of_mem ev he)) hr

/-- C10: in every state reached from `newIdleTimer(cb, d0)` by well-typed
events, a tick that is handled (worker live, ticker present) panics if and only
if it is a crossing (`NanosecSince() > dur`) and no callback is installed.  The
panic for `dur == 0` never happens at any clock reading, and with a callback
installed a tick never panics. -/
theorem tick_panics_iff (cb : Option Callback) (d0 : Int) (evs : List Event)
    (t : State) (now : Nat) (hd0 : IsInt64 d0) (hev : ∀ ev ∈ evs, ev.WellTyped)
    (hrun : run (newIdleTimer cb d0) evs = some t) :
    (t.stopped = false → t.heartbeat ≠ none →
      ((∃ m, step t (.tick now) = .panic m) ↔
        ((NanosecSince t now : Int) > t.dur ∧ t.timeoutCallback = none))) ∧
      (∀ n, step t (.tick n) ≠ .panic .heartbeatOnZeroDur) ∧
      (t.timeoutCallback ≠ none → ∀ n m, step t (.tick n) ≠ .panic m) := by
  have hi := inv_run evs (newIdleTimer cb d0) t (inv_newIdleTimer cb d0 hd0) hev hrun
  obtain ⟨l, c, dur, hb, st⟩ := t
  unfold Inv IsInt64 at hi
  simp only at hi
  obtain ⟨hhb, hr⟩ := hi
  cases hb with
  | none =>
    refine ⟨fun _ h => absurd rfl h, ?_, ?_⟩
    · intro n
      simp only [step]
      split <;> simp
    · intro _ n m
      simp only [step]
      split <;> simp
  | some p =>
    obtain ⟨hpos, _⟩ := hhb p rfl
    have hz : ¬ dur = 0 := by omega
    have hu := toUint64_of_nonneg dur (by omega) hr.2
    cases st with
    | true =>
      refine ⟨fun h => by simp at h, ?_, ?_⟩
      · intro n; simp [step]
      · intro _ n m; simp [step]
    | false =>
      refine ⟨fun _ _ => ?_, ?_, ?_⟩
      · simp only [step, Bool.false_eq_true, if_false, handleTick, hz]
        by_cases hc : NanosecSince ⟨l, c, dur, some p, false⟩ now > toUint64 dur
        · have hc' : (NanosecSince ⟨l, c, dur, some p, false⟩ now : Int) > dur := by omega
          simp only [hc, if_true, hc', true_and]
          cases c with
          | none => simp
          | some f => simp
        · have hc' : ¬ (NanosecSince ⟨l, c, dur, some p, false⟩ now : Int) > dur := by omega
          simp [hc, hc']
      · intro n
        simp only [step, Bool.false_eq_true, if_false, handleTick, hz]
        split
        · split <;> simp
        · simp
      · intro hcb n m
        simp only [step, Bool.false_eq_true, if_false, handleTick, hz]
        split
        · cases c with
          | none => exact absurd rfl hcb
          | some f => simp
        · simp

theorem tick_panics_iff_witness :
    run (newIdleTimer none 0) [.setIdleTimeout 50 1000, .reset 1010] =
        some { last := 1010, timeoutCallback := none, dur := 50, heartbeat := some 50,
               stopped := false } ∧
      step { last := 1010, timeoutCallback := none, dur := 50, heartbeat := some 50,
             stopped := false } (.tick 1061) = .panic .callbackNeverSet ∧
      ((∃ m, step { last := 1010, timeoutCallback := none, dur := 50,
                    heartbeat := some 50, stopped := false } (.tick 1061) = .panic m) ↔
        ((NanosecSince { last := 1010, timeoutCallback := none, dur := 50,
                         heartbeat := some 50, stopped := false } 1061 : Int) > 50 ∧
          (none : Option Callback) = none)) :=
  ⟨by decide, by decide,
    (tick_panics_iff none 0 [.setIdleTimeout 50 1000, .reset 1010]
      { last := 1010, timeoutCallback := none, dur := 50, heartbeat := some 50,
        stopped := false } 1061
      (by decide) (by simp [Event.WellTyped, IsInt64, IsUint64]) (by decide)).1
      (by decide) (by decide)⟩

/-! ### After the worker has returned -/

/-- A step in a stopped state keeps the worker-owned values and `stopped`,
starts no callback, and changes nothing at all unless it is a `Reset`. -/
theorem step_stopped (t t' : State) (ev : Event) (g : Option Callback)
    (r : Option Int) (hs : t.stopped = true) (h : step t ev = .next t' g r) :
    t'.stopped = true ∧ t'.dur = t.dur ∧ t'.heartbeat = t.heartbeat ∧
      t'.timeoutCallback = t.timeoutCallback ∧ g = none ∧
      ((∀ n, ev ≠ .reset n) → t' = t) := by
  cases ev with
  | reset now =>
    simp only [step, Outcome.next.injEq] at h
    obtain ⟨h1, h2, _⟩ := h
    subst h1
    exact ⟨hs, rfl, rfl, rfl, h2.symm, fun hne => absurd rfl (hne now)⟩
  | setCallback c =>
    simp only [step, hs, if_true, Outcome.next.injEq] at h
    obtain ⟨h1, h2, _⟩ := h
    subst h1
    exact ⟨hs, rfl, rfl, rfl, h2.symm, fun _ => rfl⟩
  | getIdleTimeout =>
    simp only [step, hs, if_true, Outcome.next.injEq] at h
    obtain ⟨h1, h2, _⟩ := h
    subst h1
    exact ⟨hs, rfl, rfl, rfl, h2.symm, fun _ => rfl⟩
  | setIdleTimeout newdur now =>
    simp only [step, hs, if_true, Outcome.next.injEq] at h
    obtain ⟨h1, h2, _⟩ := h
    subst h1
    exact ⟨hs, rfl, rfl, rfl, h2.symm, fun _ => rfl⟩
  | tick now =>
    simp [step, hs] at h
  | stop =>
    simp only [step, Outcome.next.injEq] at h
    obtain ⟨h1, h2, _⟩ := h
    subst h1
    refine ⟨rfl, rfl, rfl, rfl, h2.symm, fun _ => ?_⟩
    obtain ⟨l, c, d, hb, st⟩ := t
    simp only at hs
    subst hs
    rfl

theorem run_stopped (evs : List Event) :
    ∀ (t tz : State), t.stopped = true → run t evs = some tz →
      tz.stopped = true ∧ tz.dur = t.dur ∧ tz.heartbeat = t.heartbeat ∧
        tz.timeoutCallback = t.timeoutCallback := by
  induction evs with
  | nil =>
    intro t tz hs h
    simp only [run, Option.some.injEq] at h
    subst h
    exact ⟨hs, rfl, rfl, rfl⟩
  | cons ev evs ih =>
    intro t tz hs h
    obtain ⟨t', f, r, hst, hr⟩ := run_cons_some t tz ev evs h
    obtain ⟨h1, h2, h3, h4, _, _⟩ := step_stopped t t' ev f r hs hst
    obtain ⟨k1, k2, k3, k4⟩ := ih t' tz h1 hr
    exact ⟨k1, by rw [k2, h2], by rw [k3, h3], by rw [k4, h4]⟩

/-- C11: `Stop()` leaves the worker terminated, and in a terminated state
`GetIdleTimeout` returns 0, `TimedOut` returns `false` at every clock reading,
`SetIdleTimeout(d)` and `setTimeoutCallback(f)` return with the state
unchanged for every argument.  Terminated is absorbing: every event that can
happen keeps the state terminated with the same duration, ticker and callback
and starts no callback (only `Reset` still stores its timestamp), no tick is
received, and the same holds after any sequence of events. -/
theorem shutdown_fallbacks (s t : State) (hs : t.stopped = true) :
    (∃ s', step s .stop = .next s' none none ∧ s'.stopped = true) ∧
      GetIdleTimeout t = 0 ∧
      (∀ now, TimedOut t now = false) ∧
      (∀ d now, step t (.setIdleTimeout d now) = .next t none none) ∧
      (∀ f, step t (.setCallback f) = .next t none none) ∧
      (∀ n, step t (.tick n) = .notReady) ∧
      (∀ ev t' g r, step t ev = .next t' g r →
        t'.stopped = true ∧ t'.dur = t.dur ∧ t'.heartbeat = t.heartbeat ∧
          t'.timeoutCallback = t.timeoutCallback ∧ g = none ∧
          ((∀ n, ev ≠ .reset n) → t' = t)) ∧
      (∀ evs tz, run t evs = some tz →
        tz.stopped = true ∧ tz.dur = t.dur ∧ tz.heartbeat = t.heartbeat ∧
          tz.timeoutCallback = t.timeoutCallback) := by
  refine ⟨⟨{ s with stopped := true }, rfl, rfl⟩, ?_, ?_, ?_, ?_, ?_, ?_, ?_⟩
  · simp [GetIdleTimeout, hs]
  · intro now
    simp [TimedOut, hs]
  · intro d now
    simp [step, hs]
  · intro f
    simp [step, hs]
  · intro n
    simp [step, hs]
  · intro ev t' g r h
    exact step_stopped t t' ev g r hs h
  · intro evs tz h
    exact run_stopped evs t tz hs h

theorem shutdown_fallbacks_witness :
    run (newIdleTimer (some 7) 50) [.stop]
        = some { last := 0, timeoutCallback := some 7, dur := 50, heartbeat := some 50,
                 stopped := true } ∧
      GetIdleTimeout { last := 0, timeoutCallback := some 7, dur := 50,
                       heartbeat := some 50, stopped := true } = 0 ∧
      (∀ now, TimedOut { last := 0, timeoutCallback := some 7, dur := 50,
                         heartbeat := some 50, stopped := true } now = false) :=
  ⟨by decide,
    (shutdown_fallbacks (newIdleTimer (some 7) 50)
      { last := 0, timeoutCallback := some 7, dur := 50, heartbeat := some 50,
        stopped := true } (by decide)).2.1,
    (shutdown_fallbacks (newIdleTimer (some 7) 50)
      { last := 0, timeoutCallback := some 7, dur := 50, heartbeat := some 50,
        stopped := true } (by decide)).2.2.1⟩

/-- C16: in a live state, handling `setTimeoutCallback(f)` replaces the
callback by `f` and leaves duration, ticker and last-activity unchanged;
handling a duration read replies with exactly the stored duration (the value
`GetIdleTimeout` returns) and leaves the whole state unchanged; `Reset` changes
only last-activity.  None of them starts a callback. -/
theorem frame_of_requests (t : State) (f : Option Callback) (now : Nat)
    (hlive : t.stopped = false) :
    step t (.setCallback f) = .next { t with timeoutCallback := f } none none ∧
      step t .getIdleTimeout = .next t none (some t.dur) ∧
      GetIdleTimeout t = t.dur ∧
      step t (.reset now) = .next { t with last := now % 2 ^ 64 } none none := by
  refine ⟨?_, ?_, ?_, ?_⟩
  · simp [step, hlive]
  · simp [step, hlive]
  · simp [GetIdleTimeout, hlive]
  · simp [step, Reset]

theorem frame_of_requests_witness :
    step (newIdleTimer (some 7) 50) (.setCallback (some 9))
        = .next { last := 0, timeoutCallback := some 9, dur := 50,
                  heartbeat := some 50, stopped := false } none none ∧
      step (newIdleTimer (some 7) 50) .getIdleTimeout
        = .next (newIdleTimer (some 7) 50) none (some 50) ∧
      GetIdleTimeout (newIdleTimer (some 7) 50) = 50 ∧
      step (newIdleTimer (some 7) 50) (.reset 1234)
        = .next { last := 1234, timeoutCallback := some 7, dur := 50,
                  heartbeat := some 50, stopped := false } none none :=
  frame_of_requests (newIdleTimer (some 7) 50) (some 9) 1234 (by decide)

/-! ### Resets after an activation -/

/-- A sequence of `Reset` calls always runs; it changes only `last`, which
ends as the timestamp of the final call (or stays when there is no call). -/
theorem run_resets (rs : List Nat) :
    ∀ (t : State), (∀ x ∈ rs, IsUint64 x) →
      ∃ tz, run t (rs.map Event.reset) = some tz ∧
        tz.dur = t.dur ∧ tz.heartbeat = t.heartbeat ∧
        tz.timeoutCallback = t.timeoutCallback ∧ tz.stopped = t.stopped ∧
        tz.last = rs.getLastD t.last ∧ (t.last < 2 ^ 64 → tz.last < 2 ^ 64) := by
  induction rs with
  | nil =>
    intro t _
    exact ⟨t, rfl, rfl, rfl, rfl, rfl, rfl, fun h => h⟩
  | cons r rs ih =>
    intro t hrs
    have hr : r < 2 ^ 64 := hrs r (List.mem_cons_self r rs)
    have hl : (Reset t r).last = r := by
      simp only [Reset]
      exact Nat.mod_eq_of_lt hr
    obtain ⟨tz, h1, h2, h3, h4, h5, h6, h7⟩ :=
      ih (Reset t r) (fun x hx => hrs x (List.mem_cons_of_mem r hx))
    refine ⟨tz, ?_, h2, h3, h4, h5, ?_, fun _ => h7 (by rw [hl]; exact hr)⟩
    · simp only [List.map_cons]
      rw [run_cons_next t (Reset t r) (.reset r) _ none none rfl]
      exact h1
    · rw [h6, hl, List.getLastD_cons]

/-- C12: from a live disabled timer, after `SetIdleTimeout(d)` with `d > 0` is
handled (at clock reading `n0`) and `Reset` is called at the readings `rs`,
the last timestamp stored being `r` (the last of `rs`, or `n0` when `rs` is
empty), `TimedOut` at a later clock reading `n` is `true` exactly when
`n - r > d`: `false` when `n - r ≤ d`, `true` when `n - r > d`. -/
theorem timedOut_after_activation (t0 : State) (d : Int) (n0 n : Nat) (rs : List Nat)
    (hlive : t0.stopped = false) (hdis : t0.dur = 0) (hd : 0 < d) (hr : IsInt64 d)
    (hn0 : IsUint64 n0) (hrs : ∀ x ∈ rs, IsUint64 x) (hn : IsUint64 n)
    (hle : rs.getLastD n0 ≤ n) :
    ∃ tz, run t0 (.setIdleTimeout d n0 :: rs.map Event.reset) = some tz ∧
      tz.dur = d ∧ tz.last = rs.getLastD n0 ∧
      (TimedOut tz n = true ↔ (n : Int) - (rs.getLastD n0 : Nat) > d) ∧
      ((n : Int) - (rs.getLastD n0 : Nat) ≤ d → TimedOut tz n = false) := by
  unfold IsInt64 at hr
  unfold IsUint64 at hn0 hn
  have h3 : ¬ d ≤ 0 := by omega
  have hstep : step t0 (.setIdleTimeout d n0)
      = .next (Reset { t0 with dur := d, heartbeat := some d } n0) none none := by
    simp [step, hlive, handleSetIdleTimeout, hdis, h3]
  have hl0 : (Reset { t0 with dur := d, heartbeat := some d } n0).last = n0 := by
    simp only [Reset]
    exact Nat.mod_eq_of_lt hn0
  obtain ⟨tz, h1, h2, _, _, h5, h6, h7⟩ :=
    run_resets rs (Reset { t0 with dur := d, heartbeat := some d } n0) hrs
  rw [hl0] at h6
  have hlt : tz.last < 2 ^ 64 := h7 (by rw [hl0]; exact hn0)
  have hdz : tz.dur = d := by rw [h2]; rfl
  have hsz : tz.stopped = false := by rw [h5]; exact hlive
  have hu := toUint64_of_nonneg d (by omega) hr.2
  have hiff : TimedOut tz n = true ↔ (n : Int) - (rs.getLastD n0 : Nat) > d := by
    rw [timedOut_iff_of_nonneg tz n hsz (by omega) (by omega), hdz, ← h6]
    unfold NanosecSince
    omega
  refine ⟨tz, ?_, hdz, h6, hiff, ?_⟩
  · rw [run_cons_next t0 _ _ _ none none hstep]
    exact h1
  · intro hle'
    cases hb : TimedOut tz n with
    | false => rfl
    | true =>
      have := hiff.mp hb
      omega

theorem timedOut_after_activation_witness :
    run (newIdleTimer (some 7) 0)
        [.setIdleTimeout 50000000 1000000, .reset 1000000, .reset 21000000]
      = some { last := 21000000, timeoutCallback := some 7, dur := 50000000,
               heartbeat := some 50000000, stopped := false } ∧
    TimedOut { last := 21000000, timeoutCallback := some 7, dur := 50000000,
               heartbeat := some 50000000, stopped := false } 41000000 = false ∧
    TimedOut { last := 21000000, timeoutCallback := some 7, dur := 50000000,
               heartbeat := some 50000000, stopped := false } 101000000 = true ∧
    ∃ tz, run (newIdleTimer (some 7) 0)
        (.setIdleTimeout 50000000 1000000 :: [1000000, 21000000].map Event.reset)
          = some tz ∧
      tz.dur = 50000000 ∧ tz.last = [1000000, 21000000].getLastD 1000000 ∧
      (TimedOut tz 101000000 = true ↔
        ((101000000 : Nat) : Int) - ([1000000, 21000000].getLastD 1000000 : Nat)
          > 50000000) ∧
      (((101000000 : Nat) : Int) - ([1000000, 21000000].getLastD 1000000 : Nat)
          ≤ 50000000 → TimedOut tz 101000000 = false) :=
  ⟨by decide, by decide, by decide,
    timedOut_after_activation (newIdleTimer (some 7) 0) 50000000 1000000 101000000
      [1000000, 21000000] (by decide) (by decide) (by decide) (by decide) (by decide)
      (by simp [IsUint64]) (by decide) (by decide)⟩

/-! ### Ticker presence and the crossing flag -/

theorem installsTicker_pos (t : State) (newdur : Int)
    (h : installsTicker t newdur = true) : 0 < newdur := by
  unfold installsTicker at h
  by_cases h1 : t.dur > 0
  · by_cases h2 : newdur = t.dur
    · simp [h1, h2] at h
    · by_cases h3 : newdur ≤ 0
      · simp [h1, h2, h3] at h
      · omega
  · by_cases h3 : newdur ≤ 0
    · simp [h1, h3] at h
    · omega

theorem tickerInv_newIdleTimer (cb : Option Callback) (d0 : Int) :
    TickerInv (newIdleTimer cb d0) false := by
  unfold TickerInv newIdleTimer
  by_cases hd : d0 > 0
  · simp [hd]
  · simp [hd]

theorem tickerInv_step (t t' : State) (ev : Event) (f : Option Callback)
    (r : Option Int) (c : Bool) (hi : TickerInv t c) (h : step t ev = .next t' f r) :
    TickerInv t' (crossedAfter t c ev) := by
  obtain ⟨l, cb, dur, hb, st⟩ := t
  unfold TickerInv at hi
  simp only at hi
  obtain ⟨hiff, hper⟩ := hi
  cases ev with
  | reset now =>
    have h' := h
    simp only [step, Reset, Outcome.next.injEq] at h'
    obtain ⟨h1, h2, _⟩ := h'
    subst h1 h2
    simp only [crossedAfter, h]
    exact ⟨hiff, hper⟩
  | setCallback g =>
    have h' := h
    simp only [step] at h'
    split at h' <;> simp only [Outcome.next.injEq] at h' <;>
      (obtain ⟨h1, h2, _⟩ := h'; subst h1 h2; simp only [crossedAfter, h];
       exact ⟨hiff, hper⟩)
  | getIdleTimeout =>
    have h' := h
    simp only [step] at h'
    split at h' <;> simp only [Outcome.next.injEq] at h' <;>
      (obtain ⟨h1, h2, _⟩ := h'; subst h1 h2; simp only [crossedAfter, h];
       exact ⟨hiff, hper⟩)
  | stop =>
    have h' := h
    simp only [step, Outcome.next.injEq] at h'
    obtain ⟨h1, h2, _⟩ := h'
    subst h1 h2
    simp only [crossedAfter, h]
    exact ⟨hiff, hper⟩
  | tick now =>
    cases st with
    | true => simp [step] at h
    | false =>
      cases hb with
      | none => simp [step] at h
      | some p =>
        have h' := h
        simp only [step, Bool.false_eq_true, if_false, handleTick] at h'
        split at h'
        · simp at h'
        · split at h'
          · split at h'
            · simp at h'
            · simp only [Outcome.next.injEq] at h'
              obtain ⟨h1, h2, _⟩ := h'
              subst h1 h2
              simp only [crossedAfter, h]
              unfold TickerInv
              simp
          · simp only [Outcome.next.injEq] at h'
            obtain ⟨h1, h2, _⟩ := h'
            subst h1 h2
            simp only [crossedAfter, h]
            exact ⟨hiff, hper⟩
  | setIdleTimeout newdur now =>
    cases st with
    | true =>
      have h' := h
      simp only [step, if_true, Outcome.next.injEq] at h'
      obtain ⟨h1, h2, _⟩ := h'
      subst h1 h2
      simp only [crossedAfter, h, if_true]
      exact ⟨hiff, hper⟩
    | false =>
      have h' := h
      simp only [step, Bool.false_eq_true, if_false, Outcome.next.injEq] at h'
      obtain ⟨h1, h2, _⟩ := h'
      subst h2
      simp only [crossedAfter, h, Bool.false_eq_true, if_false]
      subst h1
      unfold TickerInv handleSetIdleTimeout installsTicker Reset
      dsimp only
      by_cases e1 : dur > 0
      · by_cases e2 : newdur = dur
        · rw [if_pos e1, if_pos e2, if_pos e1, if_pos e2]
          simp only [Bool.false_eq_true, if_false]
          exact ⟨hiff, hper⟩
        · by_cases e3 : newdur ≤ 0
          · rw [if_pos e1, if_neg e2, if_pos e3, if_pos e1, if_neg e2, if_pos e3]
            simp only [Bool.false_eq_true, if_false]
            refine ⟨?_, by intro p hp; simp at hp⟩
            constructor
            · intro hne; exact absurd rfl hne
            · intro hh; omega
          · rw [if_pos e1, if_neg e2, if_neg e3, if_pos e1, if_neg e2, if_neg e3]
            simp only [if_true]
            refine ⟨?_, by intro p hp; simp only [Option.some.injEq] at hp; exact hp.symm⟩
            constructor
            · intro _; exact ⟨by omega, trivial⟩
            · intro _; simp
      · by_cases e3 : newdur ≤ 0
        · rw [if_neg e1, if_pos e3, if_neg e1, if_pos e3]
          simp only [Bool.false_eq_true, if_false]
          have hnone : hb = none := by
            by_contra hne
            exact e1 (hiff.mp hne).1
          subst hnone
          refine ⟨?_, by intro p hp; simp at hp⟩
          constructor
          · intro hne; exact absurd rfl hne
          · intro hh; omega
        · rw [if_neg e1, if_neg e3, if_neg e1, if_neg e3]
          simp only [if_true]
          refine ⟨?_, by intro p hp; simp only [Option.some.injEq] at hp; exact hp.symm⟩
          constructor
          · intro _; exact ⟨by omega, trivial⟩
          · intro _; simp

theorem tickerInv_run (evs : List Event) :
    ∀ (t tz : State) (c : Bool), TickerInv t c → run t evs = some tz →
      TickerInv tz (crossedSince t c evs) := by
  induction evs with
  | nil =>
    intro t tz c hi h
    simp only [run, Option.some.injEq] at h
    subst h
    exact hi
  | cons ev evs ih =>
    intro t tz c hi h
    obtain ⟨t', f, r, hs, hr⟩ := run_cons_some t tz ev evs h
    have hc : crossedSince t c (ev :: evs) = crossedSince t' (crossedAfter t c ev) evs := by
      simp [crossedSince, hs]
    rw [hc]
    exact ih t' tz (crossedAfter t c ev) (tickerInv_step t t' ev f r c hi hs) hr

/-- C13: in every state `tz` reached from `newIdleTimer(cb, d0)` by a sequence
of handled events, the ticker is present if and only if the duration is
positive and no crossing has fired since the most recent activation (creation
with `d0 > 0`, or a duration write that installed a ticker).  A ticker that is
present has a strictly positive period, every duration write that reaches
`time.NewTicker` passes a positive value, and no tick is received while the
duration is `≤ 0`. -/
theorem alarm_present_iff (cb : Option Callback) (d0 : Int) (evs : List Event)
    (tz : State) (hrun : run (newIdleTimer cb d0) evs = some tz) :
    (tz.heartbeat ≠ none ↔
        (0 < tz.dur ∧ crossedSince (newIdleTimer cb d0) false evs = false)) ∧
      ((newIdleTimer cb d0).heartbeat ≠ none ↔ 0 < d0) ∧
      (∀ p, tz.heartbeat = some p → 0 < p) ∧
      (∀ newdur, installsTicker tz newdur = true → 0 < newdur) ∧
      (tz.dur ≤ 0 → ∀ n, step tz (.tick n) = .notReady) := by
  have hi := tickerInv_run evs (newIdleTimer cb d0) tz false
    (tickerInv_newIdleTimer cb d0) hrun
  obtain ⟨hiff, hper⟩ := hi
  have h0 := (tickerInv_newIdleTimer cb d0).1
  refine ⟨hiff, ?_, ?_, ?_, ?_⟩
  · constructor
    · intro h; exact (h0.mp h).1
    · intro h; exact h0.mpr ⟨h, rfl⟩
  · intro p hp
    have hne : tz.heartbeat ≠ none := by rw [hp]; simp
    rw [hper p hp]
    exact (hiff.mp hne).1
  · intro newdur h
    exact installsTicker_pos tz newdur h
  · intro hd n
    have hnone : tz.heartbeat = none := by
      by_contra hne
      have := (hiff.mp hne).1
      omega
    simp [step, hnone]

theorem alarm_present_iff_witness :
    run (newIdleTimer (some 7) 50) [.tick 51, .setIdleTimeout 50 60]
        = some { last := 0, timeoutCallback := some 7, dur := 50, heartbeat := none,
                 stopped := false } ∧
      crossedSince (newIdleTimer (some 7) 50) false [.tick 51, .setIdleTimeout 50 60]
        = true ∧
      ((none : Option Int) ≠ none ↔
        ((0 : Int) < 50 ∧
          crossedSince (newIdleTimer (some 7) 50) false
            [.tick 51, .setIdleTimeout 50 60] = false)) :=
  ⟨by decide, by decide,
    (alarm_present_iff (some 7) 50 [.tick 51, .setIdleTimeout 50 60]
      { last := 0, timeoutCallback := some 7, dur := 50, heartbeat := none,
        stopped := false } (by decide)).1⟩

/-- C14: in a live state reached from `newIdleTimer(cb, d0)` with the ticker
present, duration `d` and callback `f` installed, a tick at clock reading `now`
with elapsed time `NanosecSince() = now - last` above `d` releases the ticker,
leaves duration, callback and last-activity unchanged and starts `f` once; with
elapsed time at most `d` (equality included) it leaves the whole state
unchanged and starts nothing. -/
theorem tick_step (cb : Option Callback) (d0 : Int) (evs : List Event) (t : State)
    (f : Callback) (now : Nat) (hd0 : IsInt64 d0) (hev : ∀ ev ∈ evs, ev.WellTyped)
    (hrun : run (newIdleTimer cb d0) evs = some t) (hlive : t.stopped = false)
    (hhb : t.heartbeat ≠ none) (hcb : t.timeoutCallback = some f) :
    ((NanosecSince t now : Int) > t.dur →
        step t (.tick now) = .next { t with heartbeat := none } (some f) none) ∧
      ((NanosecSince t now : Int) ≤ t.dur →
        step t (.tick now) = .next t none none) := by
  have hi := inv_run evs (newIdleTimer cb d0) t (inv_newIdleTimer cb d0 hd0) hev hrun
  obtain ⟨l, c, dur, hb, st⟩ := t
  unfold Inv IsInt64 at hi
  simp only at hi hlive hhb hcb
  subst hlive hcb
  obtain ⟨hhbi, hr⟩ := hi
  cases hb with
  | none => exact absurd rfl hhb
  | some p =>
    obtain ⟨hpos, _⟩ := hhbi p rfl
    have hz : ¬ dur = 0 := by omega
    have hu := toUint64_of_nonneg dur (by omega) hr.2
    constructor
    · intro hgt
      simp only at hgt
      have hc : NanosecSince ⟨l, some f, dur, some p, false⟩ now > toUint64 dur := by omega
      simp only [step, handleTick]
      simp [hz, hc]
    · intro hle
      simp only at hle
      have hc : ¬ NanosecSince ⟨l, some f, dur, some p, false⟩ now > toUint64 dur := by omega
      simp only [step, handleTick]
      simp [hz, hc]

theorem tick_step_witness :
    run (newIdleTimer (some 7) 0) [.setIdleTimeout 50 1000]
        = some { last := 1000, timeoutCallback := some 7, dur := 50,
                 heartbeat := some 50, stopped := false } ∧
      step { last := 1000, timeoutCallback := some 7, dur := 50, heartbeat := some 50,
             stopped := false } (.tick 1051)
        = .next { last := 1000, timeoutCallback := some 7, dur := 50, heartbeat := none,
                  stopped := false } (some 7) none ∧
      step { last := 1000, timeoutCallback := some 7, dur := 50, heartbeat := some 50,
             stopped := false } (.tick 1050)
        = .next { last := 1000, timeoutCallback := some 7, dur := 50,
                  heartbeat := some 50, stopped := false } none none :=
  ⟨by decide,
    (tick_step (some 7) 0 [.setIdleTimeout 50 1000]
      { last := 1000, timeoutCallback := some 7, dur := 50, heartbeat := some 50,
        stopped := false } 7 1051 (by decide) (by simp [Event.WellTyped, IsInt64, IsUint64])
      (by decide) (by decide) (by decide) (by decide)).1 (by decide),
    (tick_step (some 7) 0 [.setIdleTimeout 50 1000]
      { last := 1000, timeoutCallback := some 7, dur := 50, heartbeat := some 50,
        stopped := false } 7 1050 (by decide) (by simp [Event.WellTyped, IsInt64, IsUint64])
      (by decide) (by decide) (by decide) (by decide)).2 (by decide)⟩

/-! ### The stored timestamp -/

/-- A step leaves `last` alone unless it is a `Reset` or an accepted duration
write that is positive and differs from the stored one. -/
theorem step_last (t t' : State) (ev : Event) (f : Option Callback) (r : Option Int)
    (h : step t ev = .next t' f r) :
    t'.last = t.last ∨ (∃ n, ev = .reset n) ∨ (t.stopped = false ∧ ev.Activates t.dur) := by
  cases ev with
  | reset now => right; left; exact ⟨now, rfl⟩
  | setCallback g =>
    simp only [step] at h
    split at h <;> simp only [Outcome.next.injEq] at h <;> (left; rw [← h.1])
  | getIdleTimeout =>
    simp only [step] at h
    split at h <;> simp only [Outcome.next.injEq] at h <;> (left; rw [← h.1])
  | setIdleTimeout newdur now =>
    simp only [step] at h
    by_cases hs : t.stopped = true
    · simp only [hs, if_true, Outcome.next.injEq] at h
      left; rw [← h.1]
    · simp only [hs, Bool.false_eq_true, if_false, Outcome.next.injEq] at h
      have hs' : t.stopped = false := by simpa using hs
      by_cases hact : 0 < newdur ∧ newdur ≠ t.dur
      · right; right; exact ⟨hs', hact⟩
      · left
        rw [← h.1]
        unfold handleSetIdleTimeout
        by_cases h1 : t.dur > 0
        · by_cases h2 : newdur = t.dur
          · simp [h1, h2]
          · by_cases h3 : newdur ≤ 0
            · simp [h1, h2, h3]
            · exact absurd ⟨by omega, h2⟩ hact
        · by_cases h3 : newdur ≤ 0
          · simp [h1, h3]
          · exact absurd ⟨by omega, by omega⟩ hact
  | tick now =>
    simp only [step] at h
    split at h
    · simp at h
    · split at h
      · simp at h
      · simp only [handleTick] at h
        split at h
        · simp at h
        · split at h
          · split at h
            · simp at h
            · simp only [Outcome.next.injEq] at h
              left; rw [← h.1]
          · simp only [Outcome.next.injEq] at h
            left; rw [← h.1]
  | stop =>
    simp only [step, Outcome.next.injEq] at h
    left; rw [← h.1]

theorem run_last (evs : List Event) :
    ∀ (t tz : State), run t evs = some tz → (∀ n, Event.reset n ∉ evs) →
      ¬ HasActivation t evs → tz.last = t.last := by
  induction evs with
  | nil =>
    intro t tz h _ _
    simp only [run, Option.some.injEq] at h
    rw [← h]
  | cons ev evs ih =>
    intro t tz h hnr hna
    obtain ⟨t', f, r, hs, hr⟩ := run_cons_some t tz ev evs h
    have hna' : ¬ HasActivation t' evs :=
      fun ha => hna (hasActivation_cons t t' ev evs f r hs ha)
    have hnr' : ∀ n, Event.reset n ∉ evs :=
      fun n hn => hnr n (List.mem_cons_of_mem ev hn)
    rw [ih t' tz hr hnr' hna']
    rcases step_last t t' ev f r hs with h1 | ⟨n, hn⟩ | ⟨hlive, hact⟩
    · exact h1
    · exact absurd (by rw [hn]; exact List.mem_cons_self _ _) (hnr n)
    · exact absurd ⟨[], ev, evs, t, rfl, rfl, hlive, hact⟩ hna

/-- C17: for `d0 > 0`, `newIdleTimer(cb, d0)` installs the ticker with period
`d0` and leaves `last` at 0.  In every state `tz` reached by events among which
there is no `Reset` and no activating duration write, `last` is still 0 and
`NanosecSince` is the raw clock reading `now`.  So `TimedOut` on the created
timer, and on `tz` while it is live with duration `d0`, is `true` exactly when
`now > d0`, and so is the crossing test of a tick; with a callback `f` the
first tick fires exactly when `now > d0`. -/
theorem creation_leaves_last_zero (cb : Option Callback) (d0 : Int)
    (evs : List Event) (tz : State) (now : Nat) (hd0 : 0 < d0) (hr : IsInt64 d0)
    (hnow : IsUint64 now) (hrun : run (newIdleTimer cb d0) evs = some tz)
    (hnoreset : ∀ n, Event.reset n ∉ evs)
    (hnoact : ¬ HasActivation (newIdleTimer cb d0) evs) :
    (newIdleTimer cb d0).heartbeat = some d0 ∧ (newIdleTimer cb d0).last = 0 ∧
      tz.last = 0 ∧ NanosecSince tz now = now ∧
      (TimedOut (newIdleTimer cb d0) now = true ↔ (now : Int) > d0) ∧
      (tz.stopped = false → tz.dur = d0 →
        ((TimedOut tz now = true ↔ (now : Int) > d0) ∧
          (NanosecSince tz now > toUint64 tz.dur ↔ (now : Int) > d0))) ∧
      (∀ f, cb = some f →
        step (newIdleTimer cb d0) (.tick now) =
          if (now : Int) > d0 then
            .next { newIdleTimer cb d0 with heartbeat := none } (some f) none
          else .next (newIdleTimer cb d0) none none) := by
  unfold IsInt64 at hr
  unfold IsUint64 at hnow
  have hlast : tz.last = 0 := run_last evs (newIdleTimer cb d0) tz hrun hnoreset hnoact
  have hns : ∀ (s : State), s.last = 0 → NanosecSince s now = now := by
    intro s hs
    unfold NanosecSince
    rw [hs]
    omega
  have hu := toUint64_of_nonneg d0 (by omega) hr.2
  have hd0' : d0 > 0 := hd0
  have hz : ¬ d0 = 0 := by omega
  have hns0 := hns (newIdleTimer cb d0) rfl
  refine ⟨by simp [newIdleTimer, hd0'], rfl, hlast, hns tz hlast, ?_, ?_, ?_⟩
  · rw [timedOut_iff_of_nonneg (newIdleTimer cb d0) now rfl
      (by simp only [newIdleTimer]; omega) (by simp only [newIdleTimer]; omega), hns0]
    simp only [newIdleTimer]
    omega
  · intro hlive hdur
    constructor
    · rw [timedOut_iff_of_nonneg tz now hlive (by omega) (by omega), hns tz hlast, hdur]
      omega
    · rw [hns tz hlast, hdur]
      omega
  · intro f hf
    subst hf
    have e : step (newIdleTimer (some f) d0) (.tick now)
        = handleTick (newIdleTimer (some f) d0) now := by
      simp [step, newIdleTimer, hd0']
    rw [e]
    unfold handleTick
    rw [hns0]
    simp only [newIdleTimer, hz, if_false]
    by_cases hc : (now : Int) > d0
    · have hc' : now > toUint64 d0 := by omega
      simp [hc, hc']
    · have hc' : ¬ now > toUint64 d0 := by omega
      simp [hc, hc']

theorem creation_leaves_last_zero_witness :
    run (newIdleTimer (some 7) 50) [.setCallback (some 9), .setIdleTimeout 50 400]
        = some { last := 0, timeoutCallback := some 9, dur := 50, heartbeat := some 50,
                 stopped := false } ∧
      NanosecSince { last := 0, timeoutCallback := some 9, dur := 50,
                     heartbeat := some 50, stopped := false } 1000000 = 1000000 ∧
      (TimedOut (newIdleTimer (some 7) 50) 1000000 = true ↔
        ((1000000 : Nat) : Int) > 50) :=
  ⟨by decide,
    (creation_leaves_last_zero (some 7) 50 [.setCallback (some 9), .setIdleTimeout 50 400]
      { last := 0, timeoutCallback := some 9, dur := 50, heartbeat := some 50,
        stopped := false } 1000000 (by decide) (by decide) (by decide) (by decide)
      (by simp)
      (by
        rintro ⟨pre, ev, post, tk, he, hr, _, hact⟩
        rcases pre with _ | ⟨a, _ | ⟨b, pre⟩⟩
        · simp only [List.nil_append, List.cons.injEq] at he
          rw [← he.1] at hact
          exact hact
        · simp only [List.cons_append, List.nil_append, List.cons.injEq] at he
          obtain ⟨ha, hb, _⟩ := he
          rw [← ha] at hr
          simp only [run, step, newIdleTimer] at hr
          simp only [Bool.false_eq_true, if_false, Option.some.injEq] at hr
          rw [← hb, ← hr] at hact
          simp [Event.Activates] at hact
        · simp only [List.cons_append, List.cons.injEq] at he
          obtain ⟨_, _, he⟩ := he
          simp at he)).2.2.2.1,
    (creation_leaves_last_zero (some 7) 50 [] (newIdleTimer (some 7) 50) 1000000
      (by decide) (by decide) (by decide) (by decide) (by simp)
      (by
        rintro ⟨pre, ev, post, tk, he, _⟩
        simp at he)).2.2.2.2.1⟩

/-- C18: for `uint64` values, `NanosecSince` is `(now - last) mod 2^64`.  When
`now ≥ last` it is the exact difference `now - last`; when `last > now` it is
`2^64 - (last - now)`, and then `TimedOut` on a live timer returns `true` for
every configured duration `d` with `0 < d < 2^64 - (last - now)`. -/
theorem nanosecSince_wraps (t : State) (now : Nat) (hl : IsUint64 t.last)
    (hn : IsUint64 now) :
    (NanosecSince t now : Int) = ((now : Int) - t.last) % 2 ^ 64 ∧
      (t.last ≤ now → NanosecSince t now = now - t.last) ∧
      (now < t.last →
        NanosecSince t now = 2 ^ 64 - (t.last - now) ∧
          (t.stopped = false → 0 < t.dur →
            t.dur < ((2 ^ 64 - (t.last - now) : Nat) : Int) → TimedOut t now = true)) := by
  unfold IsUint64 at hl hn
  obtain ⟨l, cb, dur, hb, st⟩ := t
  simp only at hl
  refine ⟨?_, ?_, ?_⟩
  · unfold NanosecSince
    simp only
    omega
  · intro hle
    unfold NanosecSince
    simp only at hle ⊢
    omega
  · intro hlt
    simp only at hlt
    have hns : NanosecSince ⟨l, cb, dur, hb, st⟩ now = 2 ^ 64 - (l - now) := by
      unfold NanosecSince
      simp only
      omega
    refine ⟨hns, ?_⟩
    intro hlive hpos hd
    simp only at hlive hpos hd
    subst hlive
    have hz : ¬ dur = 0 := by omega
    have hu : (toUint64 dur : Int) = dur := by
      unfold toUint64
      omega
    unfold TimedOut
    simp only [Bool.false_eq_true, if_false, hz, decide_eq_true_eq, hns]
    omega

theorem nanosecSince_wraps_witness :
    NanosecSince { last := 1000, timeoutCallback := none, dur := 5000000000,
                   heartbeat := some 5000000000, stopped := false } 999
        = 2 ^ 64 - (1000 - 999) ∧
      TimedOut { last := 1000, timeoutCallback := none, dur := 5000000000,
                 heartbeat := some 5000000000, stopped := false } 999 = true :=
  ⟨((nanosecSince_wraps
      { last := 1000, timeoutCallback := none, dur := 5000000000,
        heartbeat := some 5000000000, stopped := false } 999
      (by decide) (by decide)).2.2 (by decide)).1,
    ((nanosecSince_wraps
      { last := 1000, timeoutCallback := none, dur := 5000000000,
        heartbeat := some 5000000000, stopped := false } 999
      (by decide) (by decide)).2.2 (by decide)).2 (by decide) (by decide) (by decide)⟩

end IdleTimer
